import Mathlib

/-!
# Verification of the zip-img image-transcoding worker

Shallow embedding of `src/workers/zipWorker.ts` (the streaming worker, which is
the final iteration of the code; earlier iterations of the worker appear
concatenated in the repository and are treated as historical).

Modelling conventions:
* byte buffers (`Uint8Array`) are `List Nat`;
* file names are `List Char`;
* JS numbers used for quality/ratio arithmetic are `ℚ`, with `Math.round`
  modelled as `⌊x + 1/2⌋` (JS rounds half toward +∞);
* the external image codec (`createImageBitmap` / canvas `drawAndEncode`),
  and the EXIF reader (`exifr`) are oracles packed in an `Env` record: the
  pipeline logic under verification never inspects pixel data;
* the recursive budget search `meetSizeLimitJPEG` is embedded with explicit
  fuel (`width + height + 4` suffices whenever `0 < stepDownRatio < 1`,
  which is proved below); the fuel-exhausted result is `none`;
* `postMessage` traffic and ZIP writes are reified as a `List Event` trace:
  `Event.zipAdd` is `appendFileToZip` (the source of `zip-chunk` messages)
  and `Event.zipEnd` is `zipper.end()` (the source of the final chunks and
  the single `done-stream` message).
-/

namespace ZipImg

attribute [local semireducible] Rat.mul Rat.add Rat.inv Rat.sub

/-- Image formats the worker understands. -/
inductive Fmt
  | jpeg
  | png
deriving DecidableEq, Repr

/-- The `rules.format` preference: `'jpeg' | 'png' | 'auto'`. -/
inductive FmtPref
  | jpeg
  | png
  | auto
deriving DecidableEq, Repr

/-- Pixel dimensions of an image. -/
structure Dims where
  width : Nat
  height : Nat
deriving DecidableEq, Repr

/-- The `Rules` record received from the host; every field is optional,
defaults are applied at use sites exactly as in the code. -/
structure Rules where
  maxCount : Option Nat := none
  maxLongEdge : Option Nat := none
  maxBytes : Option Nat := none
  quality : Option ℚ := none
  minQuality : Option ℚ := none
  stepDownRatio : Option ℚ := none
  keepEXIF : Option Bool := none
  format : Option FmtPref := none

/-- `rules.maxCount ?? 200`. -/
def Rules.maxCountD (r : Rules) : Nat := r.maxCount.getD 200

/-- `rules.minQuality ?? 0.5`. -/
def Rules.minQualityD (r : Rules) : ℚ := r.minQuality.getD (1/2)

/-- `rules.quality ?? 0.82`. -/
def Rules.qualityD (r : Rules) : ℚ := r.quality.getD (82/100)

/-- `rules.stepDownRatio ?? 0.9`. -/
def Rules.stepDownRatioD (r : Rules) : ℚ := r.stepDownRatio.getD (9/10)

/-- `rules.format ?? 'jpeg'`. -/
def Rules.formatD (r : Rules) : FmtPref := r.format.getD FmtPref.jpeg

/-- `rules.maxBytes || Infinity`: JS `||` treats `0` as falsy, so both an
absent and a zero `maxBytes` mean "no byte budget" (`none`). -/
def Rules.effMaxBytes (r : Rules) : Option Nat :=
  match r.maxBytes with
  | some b => if b = 0 then none else some b
  | none => none

/-- JS `Math.round` (round half toward +∞). -/
def jsRound (q : ℚ) : ℤ := ⌊q + 1/2⌋

/-- JS `Math.round` of a non-negative quantity, as a `Nat`. -/
def jsRoundNat (q : ℚ) : Nat := (jsRound q).toNat

/-- `size <= maxBytes` where `maxBytes` may be `Infinity` (`none`). -/
def sizeOK (s : Nat) : Option Nat → Bool
  | none => true
  | some b => decide (s ≤ b)

/-! ## Entry classifier -/

/-- Lower-cased name, for the case-insensitive extension regexes. -/
def lowerName (n : List Char) : List Char := n.map Char.toLower

/-- `/\.(jpe?g)$/i.test(name)`. -/
def isJPEGExt (n : List Char) : Bool :=
  ['.', 'j', 'p', 'g'].isSuffixOf (lowerName n) ||
    ['.', 'j', 'p', 'e', 'g'].isSuffixOf (lowerName n)

/-- `/\.(png)$/i.test(name)`. -/
def isPNGExt (n : List Char) : Bool :=
  ['.', 'p', 'n', 'g'].isSuffixOf (lowerName n)

/-- `isJPEGMagic`: `bytes.length > 3 && bytes[0] === 0xff && bytes[1] === 0xd8
&& bytes[len-2] === 0xff && bytes[len-1] === 0xd9`. -/
def isJPEGMagic (bytes : List Nat) : Bool :=
  decide (bytes.length > 3) && (bytes.getD 0 0 == 0xff) && (bytes.getD 1 0 == 0xd8) &&
    (bytes.getD (bytes.length - 2) 0 == 0xff) && (bytes.getD (bytes.length - 1) 0 == 0xd9)

/-- `isPNGMagic`: `bytes.length > 8` and the first eight bytes are the PNG
signature `89 50 4E 47 0D 0A 1A 0A`. Note the strict `> 8` from the code. -/
def isPNGMagic (bytes : List Nat) : Bool :=
  decide (bytes.length > 8) && (bytes.getD 0 0 == 0x89) && (bytes.getD 1 0 == 0x50) &&
    (bytes.getD 2 0 == 0x4e) && (bytes.getD 3 0 == 0x47) && (bytes.getD 4 0 == 0x0d) &&
    (bytes.getD 5 0 == 0x0a) && (bytes.getD 6 0 == 0x1a) && (bytes.getD 7 0 == 0x0a)

/-- `detectImageType(name, bytes)`. -/
def detectImageType (name : List Char) (bytes : List Nat) : Option Fmt :=
  if (isJPEGExt name || !isPNGExt name) && isJPEGMagic bytes then some Fmt.jpeg
  else if isPNGExt name && isPNGMagic bytes then some Fmt.png
  else if isPNGMagic bytes then some Fmt.png
  else if isJPEGMagic bytes then some Fmt.jpeg
  else none

/-! ## Name sanitization and candidate filtering -/

/-- Characters kept by the sanitizer: `[a-zA-Z0-9._-]`. -/
def isSafeChar (c : Char) : Bool :=
  c.isAlpha || c.isDigit || c == '.' || c == '_' || c == '-'

/-- `name.replace(/[^a-zA-Z0-9._-]+/g, '_')`: each maximal run of unsafe
characters collapses to a single `'_'`. The `Bool` records whether the
previous character belonged to an unsafe run. -/
def collapseBadAux : Bool → List Char → List Char
  | _, [] => []
  | prevBad, c :: cs =>
    if isSafeChar c then c :: collapseBadAux false cs
    else if prevBad then collapseBadAux true cs
    else '_' :: collapseBadAux true cs

/-- `sanitizeName(raw)`: backslashes become slashes, only the final path
component is kept (`'image.jpg'` when it is empty — JS `|| 'image.jpg'`),
and each run of unsafe characters becomes a single `'_'`. -/
def sanitizeName (raw : List Char) : List Char :=
  let slashed := raw.map (fun c => if c == '\\' then '/' else c)
  let base := (slashed.splitOn '/').getLastD []
  let base := if base.isEmpty then "image.jpg".toList else base
  collapseBadAux false base

/-- The `unzipSync` filter: `!file.name.endsWith('/') && !file.name.startsWith('__MACOSX/')`. -/
def unzipKeep (n : List Char) : Bool :=
  !(n.getLastD ' ' == '/') && !(n.take 9 == "__MACOSX/".toList)

/-- `isHiddenish(n)`: some `/`-separated segment starts with `'.'` or `'._'`. -/
def isHiddenish (n : List Char) : Bool :=
  (n.splitOn '/').any fun part =>
    part.headD ' ' == '.' || part.take 2 == ['.', '_']

/-- The candidate name test `/(jpe?g|png)$/i.test(n)` — note: no dot is
required before the extension letters. -/
def extCandidate (n : List Char) : Bool :=
  ['j', 'p', 'g'].isSuffixOf (lowerName n) ||
    ['j', 'p', 'e', 'g'].isSuffixOf (lowerName n) ||
    ['p', 'n', 'g'].isSuffixOf (lowerName n)

/-- One input archive entry: raw stored name plus its decompressed bytes. -/
structure Entry where
  rawName : List Char
  bytes : List Nat
deriving DecidableEq, Repr

/-- Candidate selection: the `unzipSync` filter followed by
`rawNames.filter(n => /(jpe?g|png)$/i.test(n) && !isHiddenish(n))`. -/
def candidateFilter (entries : List Entry) : List Entry :=
  (entries.filter fun e => unzipKeep e.rawName).filter fun e =>
    extCandidate e.rawName && !isHiddenish e.rawName

/-! ## Target dimensions -/

/-- `targetSize(dims, maxLongEdge)`; a `none` or `0` limit is falsy
(`if (!maxLongEdge)`) and leaves the dimensions unchanged. -/
def targetSize (d : Dims) (maxLongEdge : Option Nat) : Dims :=
  match maxLongEdge with
  | none => d
  | some m =>
    if m = 0 then d
    else
      let long := max d.width d.height
      if long ≤ m then d
      else
        ⟨jsRoundNat ((d.width : ℚ) * m / long), jsRoundNat ((d.height : ℚ) * m / long)⟩

/-- The call site `targetSize(dims0, rules.maxLongEdge ?? dims0.width)`:
when `maxLongEdge` is absent the image's own width is passed as the limit. -/
def initialDims (d : Dims) (r : Rules) : Dims :=
  targetSize d (some (r.maxLongEdge.getD d.width))

/-! ## The budget encoder `meetSizeLimitJPEG` -/

/-- An abstract JPEG encoder for one fixed decoded source and orientation:
given target draw dimensions and a quality, it returns the encoded bytes.
This stands for `drawAndEncode(source, orientation, dims, 'jpeg', q)`,
whose body is canvas code outside the verified pipeline. -/
abbrev JpegEnc := Nat → Nat → ℚ → List Nat

/-- State of the 8-step quality binary search: current bounds, the best
budget-satisfying blob so far, and the number of encodes performed. -/
structure QState where
  low : ℚ
  high : ℚ
  lastGood : Option (List Nat)
  encodes : Nat

/-- The quality binary search loop body, run `n` times:
`q = (low+high)/2`; encode; if the result fits the budget record it and move
`high` down to `q`, otherwise move `low` up to `q`. -/
def qualityLoop (enc : JpegEnc) (d : Dims) (maxB : Option Nat) :
    Nat → QState → QState
  | 0, s => s
  | n + 1, s =>
    let q := (s.low + s.high) / 2
    let blob := enc d.width d.height q
    if sizeOK blob.length maxB then
      qualityLoop enc d maxB n ⟨s.low, q, some blob, s.encodes + 1⟩
    else
      qualityLoop enc d maxB n ⟨q, s.high, s.lastGood, s.encodes + 1⟩

/-- One downscale step:
`{ width: Math.max(1, Math.round(w*ratio)), height: Math.max(1, Math.round(h*ratio)) }`. -/
def stepDims (d : Dims) (ratio : ℚ) : Dims :=
  ⟨max 1 (jsRoundNat ((d.width : ℚ) * ratio)), max 1 (jsRoundNat ((d.height : ℚ) * ratio))⟩

/-- The guard `lastGood && lastGood.size <= maxBytes` on the best blob found
by the quality search. -/
def bestOK (o : Option (List Nat)) (maxB : Option Nat) : Bool :=
  match o with
  | some b => sizeOK b.length maxB
  | none => false

/-- `meetSizeLimitJPEG`, with explicit recursion fuel and an instrumented
trace: the second component lists every dimension level visited together
with the number of quality-search encodes performed at that level.
Each level: run the 8-step quality search; if the best blob fits the budget
return it; otherwise shrink the dimensions by `stepDownRatio` (floored at 1)
and recurse, unless the downscale left the dimensions unchanged, in which
case return the best-effort blob (`lastGood`, or one more encode at
`minQuality` when no encode ever fit). -/
def meetSizeLimitJPEGFuel (enc : JpegEnc) (rules : Rules) :
    Nat → Dims → Option (List Nat) × List (Dims × Nat)
  | 0, _ => (none, [])
  | fuel + 1, dims =>
    let maxB := rules.effMaxBytes
    let s := qualityLoop enc dims maxB 8 ⟨rules.minQualityD, rules.qualityD, none, 0⟩
    if bestOK s.lastGood maxB then (s.lastGood, [(dims, s.encodes)])
    else
      let next := stepDims dims rules.stepDownRatioD
      if next = dims then
        (some (s.lastGood.getD (enc dims.width dims.height rules.minQualityD)),
          [(dims, s.encodes)])
      else
        let rec' := meetSizeLimitJPEGFuel enc rules fuel next
        (rec'.1, (dims, s.encodes) :: rec'.2)

/-- Canonical fuel: `width + height + 4` levels always suffice when
`0 < stepDownRatio < 1` (proved below). -/
def meetFuelFor (d : Dims) : Nat := d.width + d.height + 4

/-- `meetSizeLimitJPEG(source, orientation, dims, rules)` — the returned blob. -/
def meetSizeLimitJPEG (enc : JpegEnc) (rules : Rules) (dims : Dims) :
    Option (List Nat) :=
  (meetSizeLimitJPEGFuel enc rules (meetFuelFor dims) dims).1

/-- The dimension levels (with per-level encode counts) visited by
`meetSizeLimitJPEG`. -/
def meetLevels (enc : JpegEnc) (rules : Rules) (dims : Dims) :
    List (Dims × Nat) :=
  (meetSizeLimitJPEGFuel enc rules (meetFuelFor dims) dims).2

/-! ## Per-entry decision logic -/

/-- `needProcess(bytes, dims, rules)`: the long edge exceeds a truthy
`maxLongEdge`, or the byte length exceeds a truthy `maxBytes`
(JS `!!rules.maxLongEdge` / `!!rules.maxBytes`, so `0` disables each test). -/
def needProcess (bytes : List Nat) (d : Dims) (r : Rules) : Bool :=
  let tooLong := match r.maxLongEdge with
    | some m => if m = 0 then false else decide (max d.width d.height > m)
    | none => false
  let tooBig := match r.maxBytes with
    | some b => if b = 0 then false else decide (bytes.length > b)
    | none => false
  tooLong || tooBig

/-- Output format selection:
`inFmt === 'png' ? 'jpeg' : (formatPref === 'auto' ? inFmt : formatPref)`. -/
def outFmtOf (inFmt : Fmt) (pref : FmtPref) : Fmt :=
  if inFmt = Fmt.png then Fmt.jpeg
  else match pref with
    | FmtPref.auto => inFmt
    | FmtPref.jpeg => Fmt.jpeg
    | FmtPref.png => Fmt.png

/-- Whether the (lower-cased) name ends in `.png` — the test of the output
renaming regex `/\.png$/i`. -/
def hasPngEnd (n : List Char) : Bool :=
  ['.', 'p', 'n', 'g'].isSuffixOf (lowerName n)

/-- `name.replace(/\.png$/i, '.jpg')`. -/
def replacePngExt (n : List Char) : List Char :=
  if hasPngEnd n then n.take (n.length - 4) ++ ".jpg".toList else n

/-! ## The job orchestrator (`onmessage`) as a message/ZIP-event trace -/

/-- The per-entry outcome statuses of the progress messages. -/
inductive Status
  | kept
  | processedS
  | skip
  | error
deriving DecidableEq, Repr

/-- The `reason` strings of the worker, as abstract tags:
`'unsupported'`, `'decode'`, and the job-level over-`maxCount` rejection text. -/
inductive Reason
  | unsupported
  | decodeFail
  | overLimit
deriving DecidableEq, Repr

/-- A `postProgress` payload: either an overall progress pair or a per-entry
outcome (`kept`/`processed` carry size, original size, and formats;
`skip`/`error` carry a reason). -/
inductive Msg
  | overall (processed total : Nat)
  | outcome (st : Status) (name : List Char) (size origSize : Option Nat)
      (inF outF : Option Fmt) (reason : Option Reason)
deriving DecidableEq, Repr

/-- One observable event of a job: a posted progress message, an
`appendFileToZip(name, data)` call (the source of the streamed `zip-chunk`
messages), or `zipper.end()` (which flushes the ZIP directory and emits the
single `done-stream` message). -/
inductive Event
  | msg (m : Msg)
  | zipAdd (name : List Char) (data : List Nat)
  | zipEnd
deriving DecidableEq, Repr

/-- The external collaborators of the pipeline, as oracles:
* `orient bytes` — `exifr.orientation` of the entry's blob (`none` both for
  an absent tag and for a thrown parse error, which the code swallows);
* `decode bytes` — `createImageBitmap` dimensions, `none` when decoding throws;
* `encode bytes orientation fmt w h q` — `drawAndEncode` output bytes for the
  bitmap decoded from `bytes` (encoding itself is modelled as total: the
  worker's catch-all `'process'` error path is unreachable in the model). -/
structure Env where
  orient : List Nat → Option Nat
  decode : List Nat → Option Dims
  encode : List Nat → Option Nat → Fmt → Nat → Nat → ℚ → List Nat

/-- The bytes the worker writes for a successfully decoded entry: the JPEG
path runs the budget search `meetSizeLimitJPEG`; the PNG path is a single
`drawAndEncode(..., 'png')` (quality argument defaulted, unused by PNG). -/
def encodedOutput (env : Env) (rules : Rules) (bytes : List Nat)
    (orientation : Option Nat) (dims : Dims) (outFmt : Fmt) : List Nat :=
  if outFmt = Fmt.jpeg then
    (meetSizeLimitJPEG (fun w h q => env.encode bytes orientation Fmt.jpeg w h q)
      rules dims).getD []
  else
    env.encode bytes orientation Fmt.png dims.width dims.height (82/100)

/-- One iteration of the `for (const rawName of names)` loop: returns the
events it emits and the updated `processed` counter. Skipped (unsupported)
and decode-failed entries `continue` before `processed++` and the overall
progress post; successful entries append the encoded bytes to the ZIP, post
their outcome, then post the incremented overall progress. -/
def processEntry (env : Env) (rules : Rules) (total processedSoFar : Nat)
    (e : Entry) : List Event × Nat :=
  let name := sanitizeName e.rawName
  match detectImageType name e.bytes with
  | none =>
    ([Event.msg (Msg.outcome Status.skip name none none none none
        (some Reason.unsupported))], processedSoFar)
  | some inFmt =>
    let orientation := if inFmt = Fmt.jpeg then env.orient e.bytes else none
    match env.decode e.bytes with
    | none =>
      ([Event.msg (Msg.outcome Status.error name none none none none
          (some Reason.decodeFail))], processedSoFar)
    | some dims0 =>
      let originalSize := e.bytes.length
      let needs := needProcess e.bytes dims0 rules
      let outFmt := outFmtOf inFmt rules.formatD
      let dims := initialDims dims0 rules
      let arr := encodedOutput env rules e.bytes orientation dims outFmt
      let outName := if outFmt = Fmt.jpeg then replacePngExt name else name
      let didTranscode := decide (outFmt ≠ inFmt) || needs
      let st := if didTranscode then Status.processedS else Status.kept
      ([Event.zipAdd outName arr,
        Event.msg (Msg.outcome st outName (some arr.length) (some originalSize)
          (some inFmt) (some outFmt) none),
        Event.msg (Msg.overall (processedSoFar + 1) total)],
        processedSoFar + 1)

/-- The whole candidate loop, threading the `processed` counter. -/
def jobLoop (env : Env) (rules : Rules) (total : Nat) :
    List Entry → Nat → List Event
  | [], _ => []
  | e :: rest, p =>
    let step := processEntry env rules total p e
    step.1 ++ jobLoop env rules total rest step.2

/-- The full trace of one job (`onmessage`), given the already-unzipped
entry list: filter candidates; reject the whole job with a single
`(worker)`-named error message when they exceed `maxCount`; otherwise post
the initial overall progress, run the loop, and end the zipper. -/
def jobTrace (env : Env) (rules : Rules) (entries : List Entry) : List Event :=
  let cands := candidateFilter entries
  if cands.length > rules.maxCountD then
    [Event.msg (Msg.outcome Status.error "(worker)".toList none none none none
      (some Reason.overLimit))]
  else
    Event.msg (Msg.overall 0 cands.length) ::
      (jobLoop env rules cands.length cands 0 ++ [Event.zipEnd])

/-- The overall-progress messages of a trace, in order. -/
def overallMsgs : List Event → List (Nat × Nat)
  | [] => []
  | Event.msg (Msg.overall p t) :: rest => (p, t) :: overallMsgs rest
  | _ :: rest => overallMsgs rest

/-- An entry passes the in-loop gates when it classifies as a supported
image and its bytes decode. -/
def passes (env : Env) (e : Entry) : Bool :=
  (detectImageType (sanitizeName e.rawName) e.bytes).isSome &&
    (env.decode e.bytes).isSome

/-- Whether an event is a per-entry outcome message. -/
def isOutcomeEvent : Event → Bool
  | Event.msg (Msg.outcome _ _ _ _ _ _ _) => true
  | _ => false

/-- Traversal of a trace (with `prev` the event preceding the current
position) checking that every overall-progress message with `processed > 0`
is immediately preceded by an outcome message. -/
def overallsFollowOutcomes : Event → List Event → Bool
  | _, [] => true
  | prev, e :: rest =>
    (match e with
     | Event.msg (Msg.overall q _) => decide (q = 0) || isOutcomeEvent prev
     | _ => true) && overallsFollowOutcomes e rest

/-! ## Concrete instances used by witnesses and counterexamples -/

/-- The 8-byte PNG signature. -/
def pngSig : List Nat := [0x89, 0x50, 0x4e, 0x47, 0x0d, 0x0a, 0x1a, 0x0a]

/-- A minimal byte sequence with the JPEG magic markers. -/
def jpegBytes : List Nat := [0xff, 0xd8, 0xff, 0xd9]

/-- An encoder whose output is always two bytes long — used to drive the
budget search into its give-up branch when `maxBytes = 1`. -/
def enc2 : JpegEnc := fun _ _ _ => [0, 0]

/-- Rules with a one-byte budget and all other fields defaulted. -/
def rules2 : Rules := { maxBytes := some 1 }

/-- Rules with `maxCount = 0` and all other fields defaulted. -/
def rules0 : Rules := { maxCount := some 0 }

/-- An encoder that records the requested quality in its output bytes. -/
def encQ : JpegEnc := fun _ _ q => [q.num.toNat, q.den]

/-- A concrete environment: every decode yields a 2×2 bitmap, no EXIF
orientation, and every encode yields the bytes `[1, 2, 3]`. -/
def envA : Env where
  orient := fun _ => none
  decode := fun _ => some ⟨2, 2⟩
  encode := fun _ _ _ _ _ _ => [1, 2, 3]

/-- A one-JPEG-entry archive (name `a.jpg`, minimal JPEG magic bytes). -/
def entryJpeg : Entry := ⟨"a.jpg".toList, jpegBytes⟩

/-- An entry whose name matches the candidate regex but whose bytes match
no magic signature. -/
def entryBogus : Entry := ⟨"a.jpg".toList, [0]⟩

/-- A PNG entry (name `b.png`, PNG signature plus one data byte). -/
def entryPng : Entry := ⟨"b.png".toList, pngSig ++ [0]⟩

/-! ## Helper lemmas -/

/-- Reading two elements produced by `List.drop`: positions `n` and `n+1`. -/
theorem getD_of_drop_pair (l : List Nat) (n a b : Nat)
    (h : l.drop n = [a, b]) :
    l.length = n + 2 ∧ l.getD n 0 = a ∧ l.getD (n + 1) 0 = b := by
  have hn : n ≤ l.length := by
    by_contra hc
    push_neg at hc
    have hnil : l.drop n = [] := List.drop_eq_nil_of_le (le_of_lt hc)
    rw [hnil] at h
    cases h
  have hlen : l.length - n = 2 := by
    have hcg := congrArg List.length h
    simpa using hcg
  refine ⟨by omega, ?_, ?_⟩
  · have h0 : l[n]? = some a := by
      have hh : (l.drop n)[0]? = some a := by rw [h]; rfl
      rwa [List.getElem?_drop, Nat.add_zero] at hh
    simp [List.getD_eq_getElem?_getD, h0]
  · have h1 : l[n + 1]? = some b := by
      have hh : (l.drop n)[1]? = some b := by rw [h]; rfl
      rwa [List.getElem?_drop] at hh
    simp [List.getD_eq_getElem?_getD, h1]

/-- Reading an element through a `List.take` equation. -/
theorem getD_of_take (l s : List Nat) (k i : Nat) (hk : l.take k = s)
    (hi : i < k) : l.getD i 0 = s.getD i 0 := by
  have h0 : s[i]? = l[i]? := by
    rw [← hk, List.getElem?_take]
    simp [hi]
  simp [List.getD_eq_getElem?_getD, h0]

/-! ## Claim C7 -/

/-- Claim C7: for every byte sequence whose first two bytes are `FF D8` and
whose last two bytes are `FF D9`, and for every filename, `detectImageType`
yields `jpeg`, regardless of the extension. (Such a sequence necessarily has
length ≥ 4, so the `length > 3` guard of `isJPEGMagic` is satisfied.) -/
theorem detect_yields_jpeg_of_jpeg_magic (name : List Char) (bytes : List Nat)
    (h1 : bytes.take 2 = [0xff, 0xd8])
    (h2 : bytes.drop (bytes.length - 2) = [0xff, 0xd9]) :
    detectImageType name bytes = some Fmt.jpeg := by
  have hb0 : bytes.getD 0 0 = 0xff := by
    rw [getD_of_take bytes _ 2 0 h1 (by omega)]; rfl
  have hb1 : bytes.getD 1 0 = 0xd8 := by
    rw [getD_of_take bytes _ 2 1 h1 (by omega)]; rfl
  have hlen2 : 2 ≤ bytes.length := by
    have hcg := congrArg List.length h1
    simp [List.length_take] at hcg
    omega
  obtain ⟨hlen, hn0, hn1⟩ :=
    getD_of_drop_pair bytes (bytes.length - 2) 0xff 0xd9 h2
  have hgt3 : bytes.length > 3 := by
    by_contra hc
    push_neg at hc
    rcases Nat.eq_or_lt_of_le hlen2 with h2e | h3
    · have e0 : bytes.length - 2 = 0 := by omega
      rw [e0] at hn1
      rw [hb1] at hn1
      cases hn1
    · have hlen3 : bytes.length = 3 := by omega
      have e1 : bytes.length - 2 = 1 := by omega
      rw [e1] at hn0
      rw [hb1] at hn0
      cases hn0
  have hn1' : bytes.getD (bytes.length - 1) 0 = 0xd9 := by
    have e : bytes.length - 2 + 1 = bytes.length - 1 := by omega
    rwa [e] at hn1
  have hJ : isJPEGMagic bytes = true := by
    simp only [isJPEGMagic]
    rw [hb0, hb1, hn0, hn1']
    simp [hgt3]
  have hP : isPNGMagic bytes = false := by
    simp only [isPNGMagic]
    rw [hb0]
    simp
  unfold detectImageType
  rw [hJ, hP]
  cases hext : (isJPEGExt name || !isPNGExt name) <;> simp

/-- Witness for C7: a four-byte JPEG-magic sequence under a `.png` filename
classifies as `jpeg`. -/
theorem detect_yields_jpeg_of_jpeg_magic_witness :
    jpegBytes.take 2 = [0xff, 0xd8] ∧
    jpegBytes.drop (jpegBytes.length - 2) = [0xff, 0xd9] ∧
    detectImageType "x.png".toList jpegBytes = some Fmt.jpeg :=
  ⟨by decide, by decide,
    detect_yields_jpeg_of_jpeg_magic "x.png".toList jpegBytes (by decide) (by decide)⟩

/-! ## Claim C8 -/

/-- Counterexample for C8: the byte sequence that is exactly the 8-byte PNG
signature satisfies "first 8 bytes equal the PNG signature", yet
`detectImageType` yields `none`, not `png`: `isPNGMagic` demands
`length > 8` (strict), so an 8-byte input fails the magic test. -/
theorem detect_png_sig_exact_counterexample :
    detectImageType "a.png".toList pngSig = none ∧
    detectImageType "a.png".toList pngSig ≠ some Fmt.png := by
  constructor
  · decide
  · decide

/-- Claim C8 as amended: for every byte sequence of length strictly greater
than 8 whose first 8 bytes equal the PNG signature, and for every filename,
`detectImageType` yields `png`. -/
theorem detect_yields_png_of_png_magic (name : List Char) (bytes : List Nat)
    (h1 : bytes.take 8 = pngSig) (h2 : 8 < bytes.length) :
    detectImageType name bytes = some Fmt.png := by
  have g0 : bytes.getD 0 0 = 0x89 := by
    rw [getD_of_take bytes _ 8 0 h1 (by omega)]; rfl
  have g1 : bytes.getD 1 0 = 0x50 := by
    rw [getD_of_take bytes _ 8 1 h1 (by omega)]; rfl
  have g2 : bytes.getD 2 0 = 0x4e := by
    rw [getD_of_take bytes _ 8 2 h1 (by omega)]; rfl
  have g3 : bytes.getD 3 0 = 0x47 := by
    rw [getD_of_take bytes _ 8 3 h1 (by omega)]; rfl
  have g4 : bytes.getD 4 0 = 0x0d := by
    rw [getD_of_take bytes _ 8 4 h1 (by omega)]; rfl
  have g5 : bytes.getD 5 0 = 0x0a := by
    rw [getD_of_take bytes _ 8 5 h1 (by omega)]; rfl
  have g6 : bytes.getD 6 0 = 0x1a := by
    rw [getD_of_take bytes _ 8 6 h1 (by omega)]; rfl
  have g7 : bytes.getD 7 0 = 0x0a := by
    rw [getD_of_take bytes _ 8 7 h1 (by omega)]; rfl
  have hP : isPNGMagic bytes = true := by
    simp only [isPNGMagic]
    rw [g0, g1, g2, g3, g4, g5, g6, g7]
    simp [h2]
  have hJ : isJPEGMagic bytes = false := by
    simp only [isJPEGMagic]
    rw [g0]
    simp
  unfold detectImageType
  rw [hJ, hP]
  cases hext : isPNGExt name <;> simp [hext]

/-- Witness for the amended C8: a 9-byte sequence starting with the PNG
signature under a `.jpg` filename classifies as `png`. -/
theorem detect_yields_png_of_png_magic_witness :
    (pngSig ++ [0]).take 8 = pngSig ∧ 8 < (pngSig ++ [0]).length ∧
    detectImageType "x.jpg".toList (pngSig ++ [0]) = some Fmt.png :=
  ⟨by decide, by decide,
    detect_yields_png_of_png_magic "x.jpg".toList (pngSig ++ [0]) (by decide) (by decide)⟩

/-! ## Claim C4 -/

/-- Counterexample for C4: with `maxLongEdge` unset and a portrait 100×200
image, the initial encoder dimensions are 50×100, not the original 100×200:
the call site substitutes the image's own width for an absent `maxLongEdge`
(`rules.maxLongEdge ?? dims0.width`), which scales any image whose height
exceeds its width. -/
theorem initialDims_unset_counterexample :
    initialDims ⟨100, 200⟩ {} = ⟨50, 100⟩ ∧
    initialDims ⟨100, 200⟩ {} ≠ ⟨100, 200⟩ := by
  constructor
  · decide
  · decide

/-- Modelled from the amended claim: when `maxLongEdge` is set, a zero limit
disables scaling and otherwise dimensions are scaled by
`maxLongEdge / longerSide` (JS round-half-up) only when the longer side
exceeds the limit; when `maxLongEdge` is UNSET, the limit defaults to the
image's own width, so the original dimensions are kept only when the width
is zero or the height does not exceed the width, and a portrait image is
scaled by `width / height`. -/
def initialDimsAmended (d : Dims) (r : Rules) : Dims :=
  match r.maxLongEdge with
  | some m =>
    if m = 0 then d
    else if max d.width d.height ≤ m then d
    else ⟨jsRoundNat ((d.width : ℚ) * m / max d.width d.height),
          jsRoundNat ((d.height : ℚ) * m / max d.width d.height)⟩
  | none =>
    if d.width = 0 then d
    else if d.height ≤ d.width then d
    else ⟨jsRoundNat ((d.width : ℚ) * d.width / d.height),
          jsRoundNat ((d.height : ℚ) * d.width / d.height)⟩

/-- Claim C4 as amended: the initial target dimensions agree everywhere with
the case analysis of `initialDimsAmended` — in particular, with `maxLongEdge`
unset they equal the original dimensions exactly when the height does not
exceed the width (or the width is zero). -/
theorem initialDims_eq_amended (d : Dims) (r : Rules) :
    initialDims d r = initialDimsAmended d r := by
  unfold initialDims initialDimsAmended targetSize
  cases hm : r.maxLongEdge with
  | some m => simp
  | none =>
    simp only [Option.getD]
    by_cases hw : d.width = 0
    · simp [hw]
    · have hmax : (max d.width d.height ≤ d.width) = (d.height ≤ d.width) := by
        simp [Nat.max_le]
      by_cases hh : d.height ≤ d.width
      · simp [hw, hh, Nat.max_eq_left hh]
      · have hlt : d.width < d.height := Nat.lt_of_not_le hh
        simp [hw, hh, Nat.max_eq_right (Nat.le_of_lt hlt)]

/-! ## Claim C6 -/

/-- Claim C6: when the classified-candidate count exceeds `maxCount`, the
entire job trace is a single `(worker)`-named error message — in particular
no entry is processed, nothing is appended to the output ZIP (so no
`zip-chunk` is ever emitted) and the zipper is never ended (so no
`done-stream` job-completion message is emitted). -/
theorem jobTrace_over_maxCount (env : Env) (rules : Rules) (entries : List Entry)
    (h : (candidateFilter entries).length > rules.maxCountD) :
    jobTrace env rules entries =
      [Event.msg (Msg.outcome Status.error "(worker)".toList none none none none
        (some Reason.overLimit))] := by
  unfold jobTrace
  simp [h]

/-- Witness for C6: one candidate against `maxCount = 0`. -/
theorem jobTrace_over_maxCount_witness :
    (candidateFilter [entryJpeg]).length > rules0.maxCountD ∧
    jobTrace envA rules0 [entryJpeg] =
      [Event.msg (Msg.outcome Status.error "(worker)".toList none none none none
        (some Reason.overLimit))] :=
  ⟨by decide, jobTrace_over_maxCount envA rules0 [entryJpeg] (by decide)⟩

/-! ## Budget-encoder lemmas -/

/-- The quality loop performs exactly one encode per iteration. -/
theorem qualityLoop_encodes (enc : JpegEnc) (d : Dims) (maxB : Option Nat) :
    ∀ n s, (qualityLoop enc d maxB n s).encodes = s.encodes + n := by
  intro n
  induction n with
  | zero => intro s; rfl
  | succ n ih =>
    intro s
    simp only [qualityLoop]
    split
    · rw [ih]
      simp only []
      omega
    · rw [ih]
      simp only []
      omega

/-- JS rounding of `w * ρ` never exceeds `w` when `ρ ≤ 1`. -/
theorem jsRoundNat_mul_le (w : Nat) (ρ : ℚ) (hρ : ρ ≤ 1) :
    jsRoundNat ((w : ℚ) * ρ) ≤ w := by
  have hle : (w : ℚ) * ρ ≤ w := by
    nlinarith [Nat.cast_nonneg (α := ℚ) w]
  have hlt : jsRound ((w : ℚ) * ρ) < (w : ℤ) + 1 := by
    unfold jsRound
    rw [Int.floor_lt]
    push_cast
    linarith
  unfold jsRoundNat
  omega

/-- A downscale step never increases either dimension, provided both are at
least 1 and the ratio is at most 1. -/
theorem stepDims_le (d : Dims) (ρ : ℚ) (hρ : ρ ≤ 1) (hw : 1 ≤ d.width)
    (hh : 1 ≤ d.height) :
    (stepDims d ρ).width ≤ d.width ∧ (stepDims d ρ).height ≤ d.height := by
  unfold stepDims
  exact ⟨max_le hw (jsRoundNat_mul_le d.width ρ hρ),
    max_le hh (jsRoundNat_mul_le d.height ρ hρ)⟩

/-- A downscale step keeps both dimensions at least 1 (the `Math.max(1, ·)`
floor). -/
theorem one_le_stepDims (d : Dims) (ρ : ℚ) :
    1 ≤ (stepDims d ρ).width ∧ 1 ≤ (stepDims d ρ).height := by
  unfold stepDims
  exact ⟨le_max_left _ _, le_max_left _ _⟩

/-- Termination: with a downscale ratio at most 1 and positive starting
dimensions, `width + height` levels of fuel suffice for the search to
return a result. -/
theorem meetFuel_isSome (enc : JpegEnc) (rules : Rules)
    (hρ : rules.stepDownRatioD ≤ 1) :
    ∀ fuel d, 1 ≤ d.width → 1 ≤ d.height → d.width + d.height ≤ fuel →
      ((meetSizeLimitJPEGFuel enc rules fuel d).1).isSome = true := by
  intro fuel
  induction fuel with
  | zero => intro d hw hh hf; omega
  | succ fuel ih =>
    intro d hw hh hf
    simp only [meetSizeLimitJPEGFuel]
    cases hg : bestOK (qualityLoop enc d rules.effMaxBytes 8
        ⟨rules.minQualityD, rules.qualityD, none, 0⟩).lastGood rules.effMaxBytes with
    | true =>
      simp only [hg, if_true]
      cases hb : (qualityLoop enc d rules.effMaxBytes 8
          ⟨rules.minQualityD, rules.qualityD, none, 0⟩).lastGood with
      | none => rw [hb] at hg; simp [bestOK] at hg
      | some b => simp
    | false =>
      simp only [hg, Bool.false_eq_true, if_false]
      by_cases hnd : stepDims d rules.stepDownRatioD = d
      · simp [hnd]
      · simp only [hnd, if_false]
        obtain ⟨hw', hh'⟩ := one_le_stepDims d rules.stepDownRatioD
        obtain ⟨hle1, hle2⟩ := stepDims_le d rules.stepDownRatioD hρ hw hh
        have hstrict : (stepDims d rules.stepDownRatioD).width +
            (stepDims d rules.stepDownRatioD).height < d.width + d.height := by
          rcases Nat.lt_or_ge (stepDims d rules.stepDownRatioD).width d.width with h1 | h1
          · omega
          · rcases Nat.lt_or_ge (stepDims d rules.stepDownRatioD).height d.height with h2 | h2
            · omega
            · exfalso
              apply hnd
              have e1 : (stepDims d rules.stepDownRatioD).width = d.width := by omega
              have e2 : (stepDims d rules.stepDownRatioD).height = d.height := by omega
              cases hsd : stepDims d rules.stepDownRatioD
              cases d
              simp_all
        exact ih (stepDims d rules.stepDownRatioD) hw' hh' (by omega)

/-- Every level visited by the search has exactly 8 quality-search encodes
and dimensions bounded by the starting dimensions, provided the starting
dimensions are at least 1 and the ratio is at most 1. -/
theorem meetFuel_levels_bound (enc : JpegEnc) (rules : Rules)
    (hρ : rules.stepDownRatioD ≤ 1) :
    ∀ fuel d, 1 ≤ d.width → 1 ≤ d.height →
      ∀ L c, (L, c) ∈ (meetSizeLimitJPEGFuel enc rules fuel d).2 →
        c = 8 ∧ L.width ≤ d.width ∧ L.height ≤ d.height := by
  intro fuel
  induction fuel with
  | zero => intro d _ _ L c h; simp [meetSizeLimitJPEGFuel] at h
  | succ fuel ih =>
    intro d hw hh L c hmem
    have henc := qualityLoop_encodes enc d rules.effMaxBytes 8
      ⟨rules.minQualityD, rules.qualityD, none, 0⟩
    simp only [meetSizeLimitJPEGFuel] at hmem
    cases hg : bestOK (qualityLoop enc d rules.effMaxBytes 8
        ⟨rules.minQualityD, rules.qualityD, none, 0⟩).lastGood rules.effMaxBytes with
    | true =>
      rw [hg] at hmem
      simp only [if_true] at hmem
      simp only [List.mem_singleton, Prod.mk.injEq] at hmem
      obtain ⟨rfl, rfl⟩ := hmem
      exact ⟨by rw [henc], le_refl _, le_refl _⟩
    | false =>
      rw [hg] at hmem
      simp only [Bool.false_eq_true, if_false] at hmem
      by_cases hnd : stepDims d rules.stepDownRatioD = d
      · rw [if_pos hnd] at hmem
        simp only [List.mem_singleton, Prod.mk.injEq] at hmem
        obtain ⟨rfl, rfl⟩ := hmem
        exact ⟨by rw [henc], le_refl _, le_refl _⟩
      · rw [if_neg hnd] at hmem
        simp only [List.mem_cons, Prod.mk.injEq] at hmem
        rcases hmem with ⟨rfl, rfl⟩ | hmem
        · exact ⟨by rw [henc], le_refl _, le_refl _⟩
        · obtain ⟨hw', hh'⟩ := one_le_stepDims d rules.stepDownRatioD
          obtain ⟨hle1, hle2⟩ := stepDims_le d rules.stepDownRatioD hρ hw hh
          obtain ⟨hc, hLw, hLh⟩ := ih (stepDims d rules.stepDownRatioD) hw' hh' L c hmem
          exact ⟨hc, le_trans hLw hle1, le_trans hLh hle2⟩

/-- Fuel irrelevance: once some fuel returns a result, any larger fuel
computes the identical result and level trace. -/
theorem meetFuel_stable (enc : JpegEnc) (rules : Rules) :
    ∀ fuel₁, ∀ d, ((meetSizeLimitJPEGFuel enc rules fuel₁ d).1).isSome = true →
      ∀ fuel₂, fuel₁ ≤ fuel₂ →
        meetSizeLimitJPEGFuel enc rules fuel₂ d =
          meetSizeLimitJPEGFuel enc rules fuel₁ d := by
  intro fuel₁
  induction fuel₁ with
  | zero => intro d h; simp [meetSizeLimitJPEGFuel] at h
  | succ fuel₁ ih =>
    intro d h fuel₂ hle
    obtain ⟨fuel₂', rfl⟩ : ∃ k, fuel₂ = k + 1 := ⟨fuel₂ - 1, by omega⟩
    have hle' : fuel₁ ≤ fuel₂' := by omega
    simp only [meetSizeLimitJPEGFuel] at h ⊢
    cases hg : bestOK (qualityLoop enc d rules.effMaxBytes 8
        ⟨rules.minQualityD, rules.qualityD, none, 0⟩).lastGood rules.effMaxBytes with
    | true => simp [hg]
    | false =>
      rw [hg] at h
      simp only [Bool.false_eq_true, if_false] at h ⊢
      by_cases hnd : stepDims d rules.stepDownRatioD = d
      · simp [hnd]
      · rw [if_neg hnd] at h ⊢
        rw [if_neg hnd]
        simp only at h
        rw [ih (stepDims d rules.stepDownRatioD) h fuel₂' hle']

/-! ## Claim C3 -/

/-- Counterexample for C3: starting the search at the degenerate dimensions
0×5 (reachable, since `targetSize` can round an extreme aspect ratio down to
a zero width), the next recursion level is 1×5: its width exceeds the
starting width because the 1-pixel floor raises a zero dimension, so the
levels are not always bounded by the starting dimensions. -/
theorem budget_levels_zero_width_counterexample :
    ((⟨1, 5⟩ : Dims), 8) ∈ meetLevels enc2 rules2 ⟨0, 5⟩ ∧
    ¬ (Dims.mk 1 5).width ≤ (Dims.mk 0 5).width := by
  exact ⟨by decide, by decide⟩

/-- Claim C3 as amended: when `0 < stepDownRatio < 1` and both starting
dimensions are at least 1 pixel, the budget search terminates on every
input (it returns a result at the canonical fuel, and the result is
independent of any larger fuel), performs exactly 8 quality-search encodes
per dimension level, and every visited level has dimensions bounded by the
starting dimensions. -/
theorem budget_search_terminates_bounded (enc : JpegEnc) (rules : Rules)
    (d : Dims) (h0 : 0 < rules.stepDownRatioD) (h1 : rules.stepDownRatioD < 1)
    (hw : 1 ≤ d.width) (hh : 1 ≤ d.height) :
    (meetSizeLimitJPEG enc rules d).isSome = true ∧
    (∀ f, meetFuelFor d ≤ f →
      meetSizeLimitJPEGFuel enc rules f d =
        meetSizeLimitJPEGFuel enc rules (meetFuelFor d) d) ∧
    (∀ L c, (L, c) ∈ meetLevels enc rules d →
      c = 8 ∧ L.width ≤ d.width ∧ L.height ≤ d.height) := by
  have hsome := meetFuel_isSome enc rules (le_of_lt h1) (meetFuelFor d) d hw hh
    (by unfold meetFuelFor; omega)
  refine ⟨hsome, ?_, ?_⟩
  · intro f hf
    exact meetFuel_stable enc rules (meetFuelFor d) d hsome f hf
  · intro L c hmem
    exact meetFuel_levels_bound enc rules (le_of_lt h1) (meetFuelFor d) d hw hh L c hmem

/-- Witness for the amended C3 at a concrete 5×5 search that exhausts its
budget. -/
theorem budget_search_terminates_bounded_witness :
    (0 < rules2.stepDownRatioD ∧ rules2.stepDownRatioD < 1) ∧
    ((meetSizeLimitJPEG enc2 rules2 ⟨5, 5⟩).isSome = true ∧
      (∀ f, meetFuelFor ⟨5, 5⟩ ≤ f →
        meetSizeLimitJPEGFuel enc2 rules2 f ⟨5, 5⟩ =
          meetSizeLimitJPEGFuel enc2 rules2 (meetFuelFor ⟨5, 5⟩) ⟨5, 5⟩) ∧
      (∀ L c, (L, c) ∈ meetLevels enc2 rules2 ⟨5, 5⟩ →
        c = 8 ∧ L.width ≤ (Dims.mk 5 5).width ∧ L.height ≤ (Dims.mk 5 5).height)) :=
  ⟨⟨by norm_num [rules2, Rules.stepDownRatioD],
    by norm_num [rules2, Rules.stepDownRatioD]⟩,
    budget_search_terminates_bounded enc2 rules2 ⟨5, 5⟩
      (by norm_num [rules2, Rules.stepDownRatioD])
      (by norm_num [rules2, Rules.stepDownRatioD]) (by decide) (by decide)⟩

/-! ## Claim C2 -/

/-- Every produced result either fits the byte budget or was returned from a
level at which a further downscale no longer changes the dimensions. -/
theorem meetFuel_budget_or_conv (enc : JpegEnc) (rules : Rules) :
    ∀ fuel d b, (meetSizeLimitJPEGFuel enc rules fuel d).1 = some b →
      sizeOK b.length rules.effMaxBytes = true ∨
      ∃ L c, (L, c) ∈ (meetSizeLimitJPEGFuel enc rules fuel d).2 ∧
        stepDims L rules.stepDownRatioD = L := by
  intro fuel
  induction fuel with
  | zero => intro d b h; simp [meetSizeLimitJPEGFuel] at h
  | succ fuel ih =>
    intro d b h
    simp only [meetSizeLimitJPEGFuel] at h ⊢
    cases hg : bestOK (qualityLoop enc d rules.effMaxBytes 8
        ⟨rules.minQualityD, rules.qualityD, none, 0⟩).lastGood rules.effMaxBytes with
    | true =>
      left
      simp [hg] at h
      rw [h] at hg
      simpa [bestOK] using hg
    | false =>
      simp only [hg, Bool.false_eq_true, if_false] at h ⊢
      by_cases hnd : stepDims d rules.stepDownRatioD = d
      · rw [if_pos hnd] at h ⊢
        right
        exact ⟨d, (qualityLoop enc d rules.effMaxBytes 8
          ⟨rules.minQualityD, rules.qualityD, none, 0⟩).encodes, by simp, hnd⟩
      · rw [if_neg hnd] at h ⊢
        simp only at h
        rcases ih (stepDims d rules.stepDownRatioD) b h with hok | ⟨L, c, hm, hL⟩
        · left; exact hok
        · right
          exact ⟨L, c, List.mem_cons_of_mem _ hm, hL⟩

/-- Counterexample for C2: an encoder whose output is always 2 bytes against
a 1-byte budget, starting at 5×5 with the default ratio 0.9: since
`round(5 · 0.9) = 5` (JS rounds half up), the downscale converges at 5×5 —
the search returns a 2-byte best-effort blob that exceeds the budget without
the dimensions ever reaching the 1×1 floor. -/
theorem budget_exceeded_without_1x1_counterexample :
    meetSizeLimitJPEG enc2 rules2 ⟨5, 5⟩ = some [0, 0] ∧
    sizeOK ([0, 0] : List Nat).length rules2.effMaxBytes = false ∧
    ¬ (⟨1, 1⟩ : Dims) ∈ (meetLevels enc2 rules2 ⟨5, 5⟩).map Prod.fst := by
  exact ⟨by decide, by decide, by decide⟩

/-- Claim C2 as amended: any blob the Budget Encoder returns either fits the
byte budget, or was produced after the search reached a dimension level at
which the `stepDownRatio` downscale no longer changes the dimensions
(rounding convergence — not necessarily the 1×1 floor). -/
theorem budget_met_or_downscale_converged (enc : JpegEnc) (rules : Rules)
    (d : Dims) (b : List Nat) (h : meetSizeLimitJPEG enc rules d = some b) :
    sizeOK b.length rules.effMaxBytes = true ∨
    ∃ L c, (L, c) ∈ meetLevels enc rules d ∧
      stepDims L rules.stepDownRatioD = L :=
  meetFuel_budget_or_conv enc rules (meetFuelFor d) d b h

/-- Witness for the amended C2 at the concrete budget-exceeding search. -/
theorem budget_met_or_downscale_converged_witness :
    meetSizeLimitJPEG enc2 rules2 ⟨5, 5⟩ = some [0, 0] ∧
    (sizeOK ([0, 0] : List Nat).length rules2.effMaxBytes = true ∨
      ∃ L c, (L, c) ∈ meetLevels enc2 rules2 ⟨5, 5⟩ ∧
        stepDims L rules2.stepDownRatioD = L) :=
  ⟨by decide,
    budget_met_or_downscale_converged enc2 rules2 ⟨5, 5⟩ [0, 0] (by decide)⟩

/-! ## Per-entry characterization -/

/-- The loop body for an entry that classifies and decodes: one ZIP append of
the encoder output, the outcome message, and the incremented overall
progress. -/
theorem processEntry_success (env : Env) (rules : Rules) (total p : Nat)
    (e : Entry) (f : Fmt) (d : Dims)
    (hf : detectImageType (sanitizeName e.rawName) e.bytes = some f)
    (hd : env.decode e.bytes = some d) :
    processEntry env rules total p e =
      ([Event.zipAdd
          (if outFmtOf f rules.formatD = Fmt.jpeg
            then replacePngExt (sanitizeName e.rawName) else sanitizeName e.rawName)
          (encodedOutput env rules e.bytes
            (if f = Fmt.jpeg then env.orient e.bytes else none)
            (initialDims d rules) (outFmtOf f rules.formatD)),
        Event.msg (Msg.outcome
          (if decide (outFmtOf f rules.formatD ≠ f) || needProcess e.bytes d rules
            then Status.processedS else Status.kept)
          (if outFmtOf f rules.formatD = Fmt.jpeg
            then replacePngExt (sanitizeName e.rawName) else sanitizeName e.rawName)
          (some (encodedOutput env rules e.bytes
            (if f = Fmt.jpeg then env.orient e.bytes else none)
            (initialDims d rules) (outFmtOf f rules.formatD)).length)
          (some e.bytes.length) (some f) (some (outFmtOf f rules.formatD)) none),
        Event.msg (Msg.overall (p + 1) total)], p + 1) := by
  unfold processEntry
  simp only [hf, hd]

/-! ## Claim C1 -/

/-- Counterexample for C1: a JPEG entry needing no processing (no limits
configured) gets status `kept`, yet the bytes appended to the output archive
are the encoder's output `[1, 2, 3]`, not the original entry bytes — the
worker re-encodes every decoded entry and never reuses the original bytes
(the file header itself calls this "force transcode"). -/
theorem kept_entry_bytes_differ_counterexample :
    jobTrace envA {} [entryJpeg] =
      [Event.msg (Msg.overall 0 1),
       Event.zipAdd "a.jpg".toList [1, 2, 3],
       Event.msg (Msg.outcome Status.kept "a.jpg".toList (some 3) (some 4)
         (some Fmt.jpeg) (some Fmt.jpeg) none),
       Event.msg (Msg.overall 1 1),
       Event.zipEnd] ∧
    ([1, 2, 3] : List Nat) ≠ entryJpeg.bytes := by
  exact ⟨by decide, by decide⟩

/-- Claim C1 as amended: an entry that classifies, decodes, needs no
processing, and whose selected output format equals its input format is
reported with status `kept` — but the bytes written to the archive are the
budget-encoder output (`encodedOutput`), not the original entry bytes; no
path reuses original bytes. -/
theorem kept_status_but_reencoded (env : Env) (rules : Rules) (total p : Nat)
    (e : Entry) (f : Fmt) (d : Dims)
    (hf : detectImageType (sanitizeName e.rawName) e.bytes = some f)
    (hd : env.decode e.bytes = some d)
    (hn : needProcess e.bytes d rules = false)
    (ho : outFmtOf f rules.formatD = f) :
    processEntry env rules total p e =
      ([Event.zipAdd
          (if f = Fmt.jpeg
            then replacePngExt (sanitizeName e.rawName) else sanitizeName e.rawName)
          (encodedOutput env rules e.bytes
            (if f = Fmt.jpeg then env.orient e.bytes else none)
            (initialDims d rules) f),
        Event.msg (Msg.outcome Status.kept
          (if f = Fmt.jpeg
            then replacePngExt (sanitizeName e.rawName) else sanitizeName e.rawName)
          (some (encodedOutput env rules e.bytes
            (if f = Fmt.jpeg then env.orient e.bytes else none)
            (initialDims d rules) f).length)
          (some e.bytes.length) (some f) (some f) none),
        Event.msg (Msg.overall (p + 1) total)], p + 1) := by
  rw [processEntry_success env rules total p e f d hf hd]
  rw [ho, hn]
  simp

/-- Witness for the amended C1: the concrete kept JPEG entry of the
counterexample, whose archive bytes are the encoder output. -/
theorem kept_status_but_reencoded_witness :
    (detectImageType (sanitizeName entryJpeg.rawName) entryJpeg.bytes = some Fmt.jpeg ∧
      envA.decode entryJpeg.bytes = some ⟨2, 2⟩ ∧
      needProcess entryJpeg.bytes ⟨2, 2⟩ {} = false ∧
      outFmtOf Fmt.jpeg (Rules.formatD {}) = Fmt.jpeg) ∧
    processEntry envA {} 1 0 entryJpeg =
      ([Event.zipAdd
          (if Fmt.jpeg = Fmt.jpeg
            then replacePngExt (sanitizeName entryJpeg.rawName)
            else sanitizeName entryJpeg.rawName)
          (encodedOutput envA {} entryJpeg.bytes
            (if Fmt.jpeg = Fmt.jpeg then envA.orient entryJpeg.bytes else none)
            (initialDims ⟨2, 2⟩ {}) Fmt.jpeg),
        Event.msg (Msg.outcome Status.kept
          (if Fmt.jpeg = Fmt.jpeg
            then replacePngExt (sanitizeName entryJpeg.rawName)
            else sanitizeName entryJpeg.rawName)
          (some (encodedOutput envA {} entryJpeg.bytes
            (if Fmt.jpeg = Fmt.jpeg then envA.orient entryJpeg.bytes else none)
            (initialDims ⟨2, 2⟩ {}) Fmt.jpeg).length)
          (some entryJpeg.bytes.length) (some Fmt.jpeg) (some Fmt.jpeg) none),
        Event.msg (Msg.overall (0 + 1) 1)], 0 + 1) :=
  ⟨⟨by decide, by decide, by decide, by decide⟩,
    kept_status_but_reencoded envA {} 1 0 entryJpeg Fmt.jpeg ⟨2, 2⟩
      (by decide) (by decide) (by decide) (by decide)⟩

/-! ## Claim C9 -/

/-- Claim C9: a candidate that classifies as PNG (under the default format
preference) is transcoded to JPEG: the selected output format is `jpeg`, its
outcome is `processed` with `inFmt = png` and `outFmt = jpeg`, and a
sanitized name ending in `.png` yields an output entry name ending in
`.jpg`. -/
theorem png_transcoded_to_jpeg (env : Env) (rules : Rules) (total p : Nat)
    (e : Entry) (d : Dims)
    (hf : detectImageType (sanitizeName e.rawName) e.bytes = some Fmt.png)
    (hd : env.decode e.bytes = some d)
    (hpref : rules.format = none) :
    outFmtOf Fmt.png rules.formatD = Fmt.jpeg ∧
    processEntry env rules total p e =
      ([Event.zipAdd (replacePngExt (sanitizeName e.rawName))
          (encodedOutput env rules e.bytes none (initialDims d rules) Fmt.jpeg),
        Event.msg (Msg.outcome Status.processedS (replacePngExt (sanitizeName e.rawName))
          (some (encodedOutput env rules e.bytes none (initialDims d rules) Fmt.jpeg).length)
          (some e.bytes.length) (some Fmt.png) (some Fmt.jpeg) none),
        Event.msg (Msg.overall (p + 1) total)], p + 1) ∧
    (hasPngEnd (sanitizeName e.rawName) = true →
      ['.', 'j', 'p', 'g'].isSuffixOf (replacePngExt (sanitizeName e.rawName)) = true) := by
  have hout : outFmtOf Fmt.png rules.formatD = Fmt.jpeg := by
    simp [outFmtOf]
  refine ⟨hout, ?_, ?_⟩
  · rw [processEntry_success env rules total p e Fmt.png d hf hd]
    rw [hout]
    simp
  · intro hpng
    unfold replacePngExt
    rw [if_pos hpng]
    rw [List.isSuffixOf_iff_suffix]
    have hjpg : ".jpg".toList = ['.', 'j', 'p', 'g'] := rfl
    rw [hjpg]
    exact List.suffix_append _ _

/-- Witness for C9: a concrete PNG entry named `b.png` becomes a processed
JPEG entry named `b.jpg`. -/
theorem png_transcoded_to_jpeg_witness :
    (detectImageType (sanitizeName entryPng.rawName) entryPng.bytes = some Fmt.png ∧
      envA.decode entryPng.bytes = some ⟨2, 2⟩ ∧ Rules.format {} = none) ∧
    (outFmtOf Fmt.png (Rules.formatD {}) = Fmt.jpeg ∧
      processEntry envA {} 1 0 entryPng =
        ([Event.zipAdd (replacePngExt (sanitizeName entryPng.rawName))
            (encodedOutput envA {} entryPng.bytes none (initialDims ⟨2, 2⟩ {}) Fmt.jpeg),
          Event.msg (Msg.outcome Status.processedS (replacePngExt (sanitizeName entryPng.rawName))
            (some (encodedOutput envA {} entryPng.bytes none
              (initialDims ⟨2, 2⟩ {}) Fmt.jpeg).length)
            (some entryPng.bytes.length) (some Fmt.png) (some Fmt.jpeg) none),
          Event.msg (Msg.overall (0 + 1) 1)], 0 + 1) ∧
      (hasPngEnd (sanitizeName entryPng.rawName) = true →
        ['.', 'j', 'p', 'g'].isSuffixOf (replacePngExt (sanitizeName entryPng.rawName)) = true)) :=
  ⟨⟨by decide, by decide, rfl⟩,
    png_transcoded_to_jpeg envA {} 1 0 entryPng ⟨2, 2⟩ (by decide) (by decide) rfl⟩

/-! ## Claim C5 -/

/-- The loop body for an entry that does not classify as a supported image:
one skip message, no ZIP append, no overall progress, counter unchanged. -/
theorem processEntry_skip (env : Env) (rules : Rules) (total p : Nat) (e : Entry)
    (hf : detectImageType (sanitizeName e.rawName) e.bytes = none) :
    processEntry env rules total p e =
      ([Event.msg (Msg.outcome Status.skip (sanitizeName e.rawName) none none none none
        (some Reason.unsupported))], p) := by
  unfold processEntry
  simp only [hf]

/-- The loop body for an entry whose bytes fail to decode: one error
message, no ZIP append, no overall progress, counter unchanged. -/
theorem processEntry_decodeFail (env : Env) (rules : Rules) (total p : Nat)
    (e : Entry) (f : Fmt)
    (hf : detectImageType (sanitizeName e.rawName) e.bytes = some f)
    (hd : env.decode e.bytes = none) :
    processEntry env rules total p e =
      ([Event.msg (Msg.outcome Status.error (sanitizeName e.rawName) none none none none
        (some Reason.decodeFail))], p) := by
  unfold processEntry
  simp only [hf, hd]

/-- `overallMsgs` distributes over trace concatenation. -/
theorem overallMsgs_append (xs ys : List Event) :
    overallMsgs (xs ++ ys) = overallMsgs xs ++ overallMsgs ys := by
  induction xs with
  | nil => rfl
  | cons e rest ih =>
    cases e with
    | msg m =>
      cases m with
      | overall q t => simp [overallMsgs, ih]
      | outcome st n s o iF oF r => simp [overallMsgs, ih]
    | zipAdd n dta => simp [overallMsgs, ih]
    | zipEnd => simp [overallMsgs, ih]

/-- The overall messages of the candidate loop: one per entry that passes
classification and decoding, counting up from `p + 1`. -/
theorem overallMsgs_jobLoop (env : Env) (rules : Rules) (total : Nat) :
    ∀ es p, overallMsgs (jobLoop env rules total es p) =
      (List.range (es.countP (passes env))).map (fun i => (p + 1 + i, total)) := by
  intro es
  induction es with
  | nil => intro p; rfl
  | cons e rest ih =>
    intro p
    simp only [jobLoop]
    rcases hf : detectImageType (sanitizeName e.rawName) e.bytes with _ | f
    · have hpass : passes env e = false := by simp [passes, hf]
      rw [processEntry_skip env rules total p e hf]
      simp [overallMsgs, ih p, List.countP_cons, hpass]
    · rcases hd : env.decode e.bytes with _ | d
      · have hpass : passes env e = false := by simp [passes, hf, hd]
        rw [processEntry_decodeFail env rules total p e f hf hd]
        simp [overallMsgs, ih p, List.countP_cons, hpass]
      · have hpass : passes env e = true := by simp [passes, hf, hd]
        rw [processEntry_success env rules total p e f d hf hd]
        simp only [List.countP_cons, hpass, if_true]
        rw [List.range_succ_eq_map]
        simp [overallMsgs, ih (p + 1), List.map_map]
        intro i _
        omega

/-- `overallsFollowOutcomes` splits across trace concatenation, the second
part resuming from the last event of the first. -/
theorem overallsFollowOutcomes_append (prev : Event) (xs ys : List Event) :
    overallsFollowOutcomes prev (xs ++ ys) =
      (overallsFollowOutcomes prev xs &&
        overallsFollowOutcomes (xs.getLastD prev) ys) := by
  induction xs generalizing prev with
  | nil => simp [overallsFollowOutcomes]
  | cons x xs ih =>
    simp only [List.cons_append, overallsFollowOutcomes, List.append_eq]
    rw [ih x, List.getLastD_cons, Bool.and_assoc]

/-- In the candidate loop, every overall message with positive count is
immediately preceded by an outcome message, whatever precedes the loop. -/
theorem overallsFollowOutcomes_jobLoop (env : Env) (rules : Rules) (total : Nat) :
    ∀ es p prev, overallsFollowOutcomes prev (jobLoop env rules total es p) = true := by
  intro es
  induction es with
  | nil => intro p prev; rfl
  | cons e rest ih =>
    intro p prev
    simp only [jobLoop]
    rcases hf : detectImageType (sanitizeName e.rawName) e.bytes with _ | f
    · rw [processEntry_skip env rules total p e hf]
      rw [overallsFollowOutcomes_append]
      simp [overallsFollowOutcomes, ih]
    · rcases hd : env.decode e.bytes with _ | d
      · rw [processEntry_decodeFail env rules total p e f hf hd]
        rw [overallsFollowOutcomes_append]
        simp [overallsFollowOutcomes, ih]
      · rw [processEntry_success env rules total p e f d hf hd]
        rw [overallsFollowOutcomes_append]
        simp [overallsFollowOutcomes, isOutcomeEvent, ih]

/-- Counterexample for C5: a single candidate whose bytes match no magic
signature is skipped via `continue` BEFORE the `processed++` and the overall
post, so it produces no overall message at all: the only overall message of
the job is the initial `(0, 1)` and the final overall is not
`(candidateCount, candidateCount)` as the claim requires. -/
theorem skipped_candidate_no_overall_counterexample :
    (candidateFilter [entryBogus]).length = 1 ∧
    overallMsgs (jobTrace envA {} [entryBogus]) = [(0, 1)] ∧
    overallMsgs (jobTrace envA {} [entryBogus]) ≠ [(0, 1), (1, 1)] := by
  exact ⟨by decide, by decide, by decide⟩

/-- Claim C5 as amended: when the job is not rejected, the overall-progress
messages are exactly `(0, n), (1, n), …, (k, n)` in this order — strictly
increasing from `(0, n)` — where `n` is the candidate count and `k` is the
number of candidates that pass classification and decoding (candidates
skipped at classification or failing decode emit only their outcome message
and no overall message); moreover every overall message after the initial
one immediately follows an outcome message. -/
theorem overall_progress_characterization (env : Env) (rules : Rules)
    (entries : List Entry)
    (h : (candidateFilter entries).length ≤ rules.maxCountD) :
    overallMsgs (jobTrace env rules entries) =
      (List.range ((candidateFilter entries).countP (passes env) + 1)).map
        (fun i => (i, (candidateFilter entries).length)) ∧
    overallsFollowOutcomes Event.zipEnd (jobTrace env rules entries) = true := by
  have hnot : ¬ (candidateFilter entries).length > rules.maxCountD := by omega
  constructor
  · unfold jobTrace
    rw [if_neg hnot]
    simp only [overallMsgs]
    rw [overallMsgs_append, overallMsgs_jobLoop]
    rw [List.range_succ_eq_map]
    simp [overallMsgs, List.map_map]
    intro i _
    omega
  · unfold jobTrace
    rw [if_neg hnot]
    simp only [overallsFollowOutcomes]
    rw [overallsFollowOutcomes_append]
    rw [overallsFollowOutcomes_jobLoop env rules (candidateFilter entries).length
      (candidateFilter entries) 0
      (Event.msg (Msg.overall 0 (candidateFilter entries).length))]
    simp [overallsFollowOutcomes]

/-- Witness for the amended C5: one passing JPEG candidate gives overall
messages `(0,1), (1,1)`. -/
theorem overall_progress_characterization_witness :
    (candidateFilter [entryJpeg]).length ≤ Rules.maxCountD {} ∧
    (overallMsgs (jobTrace envA {} [entryJpeg]) =
      (List.range ((candidateFilter [entryJpeg]).countP (passes envA) + 1)).map
        (fun i => (i, (candidateFilter [entryJpeg]).length)) ∧
      overallsFollowOutcomes Event.zipEnd (jobTrace envA {} [entryJpeg]) = true) :=
  ⟨by decide, overall_progress_characterization envA {} [entryJpeg] (by decide)⟩

/-- One unfolding of the quality loop when there is no byte budget: the
trial always fits, so the blob is recorded and `high` moves to the midpoint. -/
theorem qualityLoop_none_step (enc : JpegEnc) (d : Dims) (n : Nat) (s : QState) :
    qualityLoop enc d none (n + 1) s =
      qualityLoop enc d none n ⟨s.low, (s.low + s.high) / 2,
        some (enc d.width d.height ((s.low + s.high) / 2)), s.encodes + 1⟩ := by
  simp [qualityLoop, sizeOK]

/-- Closed form of the quality loop with no byte budget: after `n + 1`
iterations `low` is unchanged, `high` has been halved toward `low` each
iteration, and the recorded blob is the final iteration's encode at
`low + (high − low) / 2^(n+1)`. -/
theorem qualityLoop_none (enc : JpegEnc) (d : Dims) :
    ∀ n s, qualityLoop enc d none (n + 1) s =
      ⟨s.low, s.low + (s.high - s.low) / 2 ^ (n + 1),
        some (enc d.width d.height (s.low + (s.high - s.low) / 2 ^ (n + 1))),
        s.encodes + (n + 1)⟩ := by
  intro n
  induction n with
  | zero =>
    intro s
    rw [qualityLoop_none_step]
    simp only [qualityLoop]
    have hq : (s.low + s.high) / 2 = s.low + (s.high - s.low) / 2 ^ (0 + 1) := by
      ring
    rw [hq]
  | succ n ih =>
    intro s
    rw [qualityLoop_none_step, ih]
    dsimp only
    have hq : s.low + ((s.low + s.high) / 2 - s.low) / 2 ^ (n + 1) =
        s.low + (s.high - s.low) / 2 ^ (n + 1 + 1) := by
      ring
    rw [hq]
    have he : s.encodes + 1 + (n + 1) = s.encodes + (n + 1 + 1) := by
      omega
    rw [he]

/-! ## Claim C10 -/

/-- Claim C10: when `maxBytes` is unset (or zero — JS `||` treats both as
"no budget"), every trial encode trivially fits the budget, so each of the
8 binary-search iterations records its blob and halves `high` toward `low`;
the search finishes at the single starting dimension level and returns the
final (8th) iteration's blob, whose quality is exactly
`minQuality + (quality − minQuality) / 2^8` — at distance
`(quality − minQuality) / 2^8` from the `minQuality` floor. -/
theorem no_budget_returns_final_iteration_blob (enc : JpegEnc) (rules : Rules)
    (d : Dims) (h : rules.effMaxBytes = none) :
    meetSizeLimitJPEG enc rules d =
      some (enc d.width d.height
        (rules.minQualityD + (rules.qualityD - rules.minQualityD) / 2 ^ 8)) ∧
    meetLevels enc rules d = [(d, 8)] ∧
    rules.minQualityD + (rules.qualityD - rules.minQualityD) / 2 ^ 8 -
        rules.minQualityD = (rules.qualityD - rules.minQualityD) / 2 ^ 8 := by
  have h8 := qualityLoop_none enc d 7 ⟨rules.minQualityD, rules.qualityD, none, 0⟩
  refine ⟨?_, ?_, by ring⟩
  · unfold meetSizeLimitJPEG meetFuelFor
    rw [show d.width + d.height + 4 = (d.width + d.height + 3) + 1 from rfl]
    simp only [meetSizeLimitJPEGFuel, h]
    rw [show (8 : Nat) = 7 + 1 from rfl, h8]
    simp [bestOK, sizeOK]
  · unfold meetLevels meetFuelFor
    rw [show d.width + d.height + 4 = (d.width + d.height + 3) + 1 from rfl]
    simp only [meetSizeLimitJPEGFuel, h]
    rw [show (8 : Nat) = 7 + 1 from rfl, h8]
    simp [bestOK, sizeOK]

/-- Witness for C10 with default rules (`maxBytes` absent) and the
quality-recording encoder: the returned blob records quality
`401/800 = 1/2 + (0.82 − 0.5)/256`. -/
theorem no_budget_returns_final_iteration_blob_witness :
    Rules.effMaxBytes {} = none ∧
    (meetSizeLimitJPEG encQ {} ⟨3, 3⟩ =
      some (encQ (Dims.mk 3 3).width (Dims.mk 3 3).height
        (Rules.minQualityD {} + (Rules.qualityD {} - Rules.minQualityD {}) / 2 ^ 8)) ∧
      meetLevels encQ {} ⟨3, 3⟩ = [(⟨3, 3⟩, 8)] ∧
      Rules.minQualityD {} + (Rules.qualityD {} - Rules.minQualityD {}) / 2 ^ 8 -
          Rules.minQualityD {} = (Rules.qualityD {} - Rules.minQualityD {}) / 2 ^ 8) :=
  ⟨rfl, no_budget_returns_final_iteration_blob encQ {} ⟨3, 3⟩ rfl⟩

end ZipImg





